import Mathlib

/-!
Verification of src/models/ConvNet2D_numpy.py against its specification.

Modelling conventions.  Batch tensors are total functions from four natural
indices (sample, row, col, channel) to rationals; a definition only ever reads
indices inside the shape the corresponding numpy code touches.  Python loops
that accumulate into a buffer with += are embedded as folds over the exact
index lists the loops traverse.  Python-level failures (AssertionError,
NameError, TypeError, IndexError) are embedded with Except, and the name
lookups the interpreter performs are embedded against explicit lists of the
names the relevant scopes bind, read off the source.  The softmax layer is
embedded over the real numbers with the exact exponential.
-/

/-- Runtime errors of the Python interpreter that the embedded code can raise. -/
inductive PyErr where
  | assertionError
  | nameError (missing : String)
  | typeError (culprit : String)
  | indexError
  deriving DecidableEq

/-- Names bound at module level of ConvNet2D_numpy.py: the import at line 1 and
the four class statements.  No function or value named ReLU, softmax or X is
bound at module level. -/
def moduleGlobals : List String := ["np", "ConvNet2D", "Conv2d", "Pooling", "FullyConnected"]

/-- Local names the body of ConvNet2D.__init__ binds before line 30 executes:
its parameters (lines 4-5) and the loop variable of line 23. -/
def ConvNet2D.initLocals : List String :=
  ["self", "in_channels", "out_channels", "num_filters", "filter_sizes",
   "strides", "paddings", "pooling", "pool_size", "i"]

/-- Effect of iteration i of the loop at lines 23-28 of ConvNet2D.__init__.
The Conv2d construction at line 24 succeeds.  At line 27, when pooling is not
None the subscript pooling[i] raises IndexError if i is out of range; when the
flag is True, line 28 evaluates Pooling(pool_size[i]), which raises TypeError
because Pooling.__init__ (line 303) has a required stride parameter that the
call does not pass. -/
def ConvNet2D.initLoopStep (pooling : Option (List Bool)) (i : ℕ) : Option PyErr :=
  match pooling with
  | none => none
  | some flags =>
    if h : i < flags.length then
      if flags.get ⟨i, h⟩ then some (.typeError "Pooling") else none
    else some .indexError

/-- ConvNet2D.__init__ (lines 4-31): attribute assignments, the two asserts at
lines 17-18, the layer-construction loop of lines 23-28, then line 30, which
reads the name X to build the fully-connected weights.  X is bound neither in
ConvNet2D.initLocals nor in moduleGlobals, so reaching line 30 raises
NameError; the ok branch of that lookup is unreachable. -/
def ConvNet2D.init (num_filters filter_sizes strides paddings : List ℤ)
    (pooling : Option (List Bool)) (pool_size : List ℤ) : Except PyErr Unit :=
  if ¬(num_filters.length = filter_sizes.length ∧
        filter_sizes.length = strides.length ∧
        strides.length = paddings.length) then
    .error .assertionError
  else if ¬(pooling = none ∨ pooling.elim 0 List.length = pool_size.length) then
    .error .assertionError
  else
    match (List.range num_filters.length).findSome? (ConvNet2D.initLoopStep pooling) with
    | some e => .error e
    | none =>
      if "X" ∈ ConvNet2D.initLocals ∨ "X" ∈ moduleGlobals then .ok ()
      else .error (.nameError "X")

theorem initLoopStep_none (l : List ℕ) :
    l.findSome? (ConvNet2D.initLoopStep none) = none := by
  induction l with
  | nil => rfl
  | cons a t ih => simp [List.findSome?, ConvNet2D.initLoopStep, ih]

/-- A batch tensor addressed by (sample, row, col, channel). -/
abbrev T4 : Type := ℕ → ℕ → ℕ → ℕ → ℚ

/-- Index quadruples (i, h, w, c) in the order the four nested loops of the
source traverse them. -/
def idx4 (m nH nW nC : ℕ) : List (ℕ × ℕ × ℕ × ℕ) :=
  (List.range m).flatMap fun i =>
    (List.range nH).flatMap fun h =>
      (List.range nW).flatMap fun w =>
        (List.range nC).map fun c => (i, h, w, c)

/-- Fold of pointwise += updates of a 4-index buffer, one update per loop
iteration: the running buffer gains the iteration's contribution at every
cell. -/
def accum4 (idxs : List (ℕ × ℕ × ℕ × ℕ)) (contrib : ℕ × ℕ × ℕ × ℕ → T4) (buf : T4) : T4 :=
  idxs.foldl (fun acc q i y x c => acc i y x c + contrib q i y x c) buf

theorem accum4_apply (idxs : List (ℕ × ℕ × ℕ × ℕ)) (contrib : ℕ × ℕ × ℕ × ℕ → T4)
    (buf : T4) (i y x c : ℕ) :
    accum4 idxs contrib buf i y x c
      = buf i y x c + (idxs.map fun q => contrib q i y x c).sum := by
  induction idxs generalizing buf with
  | nil => simp [accum4]
  | cons q qs ih =>
    show accum4 qs contrib _ i y x c = _
    rw [ih]
    simp [add_assoc]

theorem sum_map_range (n : ℕ) (f : ℕ → ℚ) :
    ((List.range n).map f).sum = ∑ j ∈ Finset.range n, f j := by
  induction n with
  | zero => simp
  | succ n ih => rw [List.range_succ] ; simp [ih, Finset.sum_range_succ]

theorem sum_map_flatMap {α β : Type} (l : List α) (g : α → List β) (f : β → ℚ) :
    ((l.flatMap g).map f).sum = (l.map fun a => ((g a).map f).sum).sum := by
  induction l with
  | nil => simp
  | cons a t ih => simp [ih]

theorem sum_idx4 (m nH nW nC : ℕ) (f : ℕ × ℕ × ℕ × ℕ → ℚ) :
    ((idx4 m nH nW nC).map f).sum =
      ∑ i ∈ Finset.range m, ∑ h ∈ Finset.range nH,
        ∑ w ∈ Finset.range nW, ∑ c ∈ Finset.range nC, f (i, h, w, c) := by
  rw [idx4, sum_map_flatMap, ← sum_map_range]
  refine congrArg List.sum (List.map_congr_left fun i _ => ?_)
  rw [sum_map_flatMap, ← sum_map_range]
  refine congrArg List.sum (List.map_congr_left fun h _ => ?_)
  rw [sum_map_flatMap, ← sum_map_range]
  refine congrArg List.sum (List.map_congr_left fun w _ => ?_)
  rw [List.map_map, ← sum_map_range]
  rfl

/-- Values of the f-by-f window of channel c of sample i whose top-left corner
is (vs, hs), in the row-major order numpy enumerates a slice. -/
def windowList (A : T4) (i vs hs f c : ℕ) : List ℚ :=
  (List.range f).flatMap fun dy => (List.range f).map fun dx => A i (vs + dy) (hs + dx) c

/-- np.max of the elements of a list.  The source applies it to nonempty window
slices only; the empty case, never reached, is given the value 0. -/
def npMax : List ℚ → ℚ
  | [] => 0
  | a :: r => r.foldl max a

/-- The pooling mode, mode of Pooling.__init__ (line 303). -/
inductive PoolMode where
  | max
  | average
  deriving DecidableEq

/-- Contribution that iteration (i, h, w, c) of the loops at lines 389-426 of
Pooling.backward adds to the gradient buffer.  The iteration touches the cells
of channel c of sample i inside the window whose corners are computed at lines
394-398.  In max mode (lines 402-414) the cell receives dA[i,h,w,c] exactly
when it equals the maximum of the forward window (the mask of line 411); in
average mode (lines 416-426) every cell of the window receives
dA[i,h,w,c] / (f*f) (lines 425-426). -/
def Pooling.cellGrad (mode : PoolMode) (f stride : ℕ) (A_prev dA : T4)
    (i h w c : ℕ) : T4 := fun i2 y x c2 =>
  if i = i2 ∧ c = c2 ∧ h * stride ≤ y ∧ y < h * stride + f ∧
      w * stride ≤ x ∧ x < w * stride + f then
    match mode with
    | .max =>
      if A_prev i2 y x c2 = npMax (windowList A_prev i2 (h * stride) (w * stride) f c2)
      then dA i h w c else 0
    | .average => dA i h w c / ((f : ℚ) * f)
  else 0

/-- Pooling.backward (lines 364-428): dA_prev starts as zeros (line 387) and the
four nested loops accumulate each iteration's window contribution into it. -/
def Pooling.backward (mode : PoolMode) (f stride : ℕ) (A_prev dA : T4)
    (m nH nW nC : ℕ) : T4 :=
  accum4 (idx4 m nH nW nC)
    (fun q => Pooling.cellGrad mode f stride A_prev dA q.1 q.2.1 q.2.2.1 q.2.2.2)
    (fun _ _ _ _ => 0)

theorem pool_backward_cell (mode : PoolMode) (f stride : ℕ) (A_prev dA : T4)
    (m nH nW nC i y x c : ℕ) (hi : i < m) (hc : c < nC) :
    Pooling.backward mode f stride A_prev dA m nH nW nC i y x c =
      ∑ h ∈ Finset.range nH, ∑ w ∈ Finset.range nW,
        Pooling.cellGrad mode f stride A_prev dA i h w c i y x c := by
  rw [Pooling.backward, accum4_apply, sum_idx4, zero_add]
  rw [Finset.sum_eq_single_of_mem i (Finset.mem_range.mpr hi) ?hzero]
  case hzero =>
    intro b _ hb
    refine Finset.sum_eq_zero fun h _ => Finset.sum_eq_zero fun w _ =>
      Finset.sum_eq_zero fun c0 _ => ?_
    simp only [Pooling.cellGrad]
    rw [if_neg]
    rintro ⟨rfl, -⟩
    exact hb rfl
  refine Finset.sum_congr rfl fun h _ => Finset.sum_congr rfl fun w _ => ?_
  rw [Finset.sum_eq_single_of_mem c (Finset.mem_range.mpr hc) ?czero]
  intro b _ hb
  simp only [Pooling.cellGrad]
  rw [if_neg]
  rintro ⟨-, rfl, -⟩
  exact hb rfl

/-- The 1-sample, 2x2, 1-channel input [[5, 5], [1, 2]] of the tie scenario. -/
def tieA : T4 := fun _ y x _ =>
  if y = 0 ∧ x = 0 then 5 else if y = 0 ∧ x = 1 then 5
  else if y = 1 ∧ x = 0 then 1 else 2

/-- Upstream gradient 3 at the single output position of the tie scenario. -/
def tieDA : T4 := fun _ _ _ _ => 3

/-- C5: in max mode, Pooling.backward adds the full upstream gradient value to
every cell of the window that equals the window's maximum, ties not split: an
accumulated cell equals the sum, over the output positions whose window covers
it, of the upstream gradient gated by the equality mask; in a single window a
cell holding the maximum receives the whole upstream value and a cell not
holding it receives zero; for window [[5, 5], [1, 2]] with upstream gradient 3,
both 5-valued cells receive 3 and the other two cells 0. -/
theorem pool_backward_max_spec :
    (∀ (f stride : ℕ) (A_prev dA : T4) (m nH nW nC i y x c : ℕ), i < m → c < nC →
        Pooling.backward .max f stride A_prev dA m nH nW nC i y x c =
          ∑ h ∈ Finset.range nH, ∑ w ∈ Finset.range nW,
            if h * stride ≤ y ∧ y < h * stride + f ∧
                w * stride ≤ x ∧ x < w * stride + f then
              (if A_prev i y x c = npMax (windowList A_prev i (h * stride) (w * stride) f c)
               then dA i h w c else 0)
            else 0) ∧
    (∀ (f stride : ℕ) (A dA : T4) (y x : ℕ), y < f → x < f →
        A 0 y x 0 = npMax (windowList A 0 0 0 f 0) →
        Pooling.backward .max f stride A dA 1 1 1 1 0 y x 0 = dA 0 0 0 0) ∧
    (∀ (f stride : ℕ) (A dA : T4) (y x : ℕ),
        A 0 y x 0 ≠ npMax (windowList A 0 0 0 f 0) →
        Pooling.backward .max f stride A dA 1 1 1 1 0 y x 0 = 0) ∧
    (Pooling.backward .max 2 2 tieA tieDA 1 1 1 1 0 0 0 0 = 3 ∧
     Pooling.backward .max 2 2 tieA tieDA 1 1 1 1 0 0 1 0 = 3 ∧
     Pooling.backward .max 2 2 tieA tieDA 1 1 1 1 0 1 0 0 = 0 ∧
     Pooling.backward .max 2 2 tieA tieDA 1 1 1 1 0 1 1 0 = 0) := by
  refine ⟨?_, ?_, ?_, ?_⟩
  · intro f stride A_prev dA m nH nW nC i y x c hi hc
    rw [pool_backward_cell _ _ _ _ _ _ _ _ _ _ _ _ _ hi hc]
    refine Finset.sum_congr rfl fun h _ => Finset.sum_congr rfl fun w _ => ?_
    simp [Pooling.cellGrad]
  · intro f stride A dA y x hy hx hmax
    rw [pool_backward_cell _ _ _ _ _ _ _ _ _ _ _ _ _ (by norm_num) (by norm_num)]
    simp [Finset.sum_range_one, Pooling.cellGrad, hy, hx, hmax]
  · intro f stride A dA y x hne
    rw [pool_backward_cell _ _ _ _ _ _ _ _ _ _ _ _ _ (by norm_num) (by norm_num)]
    simp [Finset.sum_range_one, Pooling.cellGrad, hne]
  · norm_num [Pooling.backward, accum4, idx4, Pooling.cellGrad, windowList, npMax,
      tieA, tieDA, List.range_succ, max_def]

/-- Closed instance discharging the hypotheses of the first part of
pool_backward_max_spec. -/
theorem pool_backward_max_spec_witness :
    Pooling.backward .max 2 2 tieA tieDA 1 1 1 1 0 0 0 0 =
      ∑ h ∈ Finset.range 1, ∑ w ∈ Finset.range 1,
        if h * 2 ≤ 0 ∧ 0 < h * 2 + 2 ∧ w * 2 ≤ 0 ∧ 0 < w * 2 + 2 then
          (if tieA 0 0 0 0 = npMax (windowList tieA 0 (h * 2) (w * 2) 2 0)
           then tieDA 0 h w 0 else 0)
        else 0 :=
  pool_backward_max_spec.1 2 2 tieA tieDA 1 1 1 1 0 0 0 0 (by norm_num) (by norm_num)

/-- The 1-sample, 2x2, 1-channel input [[1, 2], [3, 4]] of the average
scenario. -/
def avgA : T4 := fun _ y x _ =>
  if y = 0 ∧ x = 0 then 1 else if y = 0 ∧ x = 1 then 2
  else if y = 1 ∧ x = 0 then 3 else 4

/-- Upstream gradient 4 at the single output position of the average
scenario. -/
def avgDA : T4 := fun _ _ _ _ => 4

/-- C6: in average mode, Pooling.backward adds output_gradient / (f * f) to
every cell of each window: an accumulated cell equals the sum of that
contribution over the output positions whose window covers it, so overlapping
windows accumulate additively; the gradient redistributed within one window
sums to the upstream value; for the 2x2 window [[1, 2], [3, 4]] with upstream
gradient 4 every input cell receives 1. -/
theorem pool_backward_average_spec :
    (∀ (f stride : ℕ) (A_prev dA : T4) (m nH nW nC i y x c : ℕ), i < m → c < nC →
        Pooling.backward .average f stride A_prev dA m nH nW nC i y x c =
          ∑ h ∈ Finset.range nH, ∑ w ∈ Finset.range nW,
            if h * stride ≤ y ∧ y < h * stride + f ∧
                w * stride ≤ x ∧ x < w * stride + f then
              dA i h w c / ((f : ℚ) * f)
            else 0) ∧
    (∀ (f stride : ℕ) (A dA : T4), f ≠ 0 →
        ∑ y ∈ Finset.range f, ∑ x ∈ Finset.range f,
          Pooling.backward .average f stride A dA 1 1 1 1 0 y x 0 = dA 0 0 0 0) ∧
    (Pooling.backward .average 2 2 avgA avgDA 1 1 1 1 0 0 0 0 = 1 ∧
     Pooling.backward .average 2 2 avgA avgDA 1 1 1 1 0 0 1 0 = 1 ∧
     Pooling.backward .average 2 2 avgA avgDA 1 1 1 1 0 1 0 0 = 1 ∧
     Pooling.backward .average 2 2 avgA avgDA 1 1 1 1 0 1 1 0 = 1) := by
  refine ⟨?_, ?_, ?_⟩
  · intro f stride A_prev dA m nH nW nC i y x c hi hc
    rw [pool_backward_cell _ _ _ _ _ _ _ _ _ _ _ _ _ hi hc]
    refine Finset.sum_congr rfl fun h _ => Finset.sum_congr rfl fun w _ => ?_
    simp [Pooling.cellGrad]
  · intro f stride A dA hf
    have hcell : ∀ y x, y < f → x < f →
        Pooling.backward .average f stride A dA 1 1 1 1 0 y x 0 =
          dA 0 0 0 0 / ((f : ℚ) * f) := by
      intro y x hy hx
      rw [pool_backward_cell _ _ _ _ _ _ _ _ _ _ _ _ _ (by norm_num) (by norm_num)]
      simp [Finset.sum_range_one, Pooling.cellGrad, hy, hx]
    rw [Finset.sum_congr rfl fun y hy => Finset.sum_congr rfl fun x hx =>
      hcell y x (Finset.mem_range.mp hy) (Finset.mem_range.mp hx)]
    have hfQ : (f : ℚ) ≠ 0 := Nat.cast_ne_zero.mpr hf
    simp only [Finset.sum_const, Finset.card_range, nsmul_eq_mul]
    field_simp
    ring
  · norm_num [Pooling.backward, accum4, idx4, Pooling.cellGrad, windowList, npMax,
      avgA, avgDA, List.range_succ]

/-- Closed instance discharging the hypotheses of the second part of
pool_backward_average_spec. -/
theorem pool_backward_average_spec_witness :
    ∑ y ∈ Finset.range 2, ∑ x ∈ Finset.range 2,
      Pooling.backward .average 2 7 avgA avgDA 1 1 1 1 0 y x 0 = avgDA 0 0 0 0 :=
  pool_backward_average_spec.2.1 2 7 avgA avgDA (by norm_num)

/-- Index triples (dy, dx, cp) over a kernel-sized slice, in numpy's row-major
order. -/
def idx3 (a b c : ℕ) : List (ℕ × ℕ × ℕ) :=
  (List.range a).flatMap fun dy =>
    (List.range b).flatMap fun dx =>
      (List.range c).map fun cp => (dy, dx, cp)

/-- Conv2d.conv_single_step (line 159): np.sum(np.multiply(slice, W) + b).
The elementwise product has shape (f, f, n_C_prev) and b broadcasts over it, so
the scalar b is added to every one of the f * f * n_C_prev products before the
sum is taken. -/
def Conv2d.conv_single_step (f nCprev : ℕ) (slice W : ℕ → ℕ → ℕ → ℚ) (b : ℚ) : ℚ :=
  ((idx3 f f nCprev).map fun q =>
    slice q.1 q.2.1 q.2.2 * W q.1 q.2.1 q.2.2 + b).sum

/-- The specified behavior of one convolution step: the dot product of the
window with the filter, plus the channel's bias exactly once. -/
def specConvSingleStep (f nCprev : ℕ) (slice W : ℕ → ℕ → ℕ → ℚ) (b : ℚ) : ℚ :=
  ((idx3 f f nCprev).map fun q =>
    slice q.1 q.2.1 q.2.2 * W q.1 q.2.1 q.2.2).sum + b

/-- What conv_single_step actually totals: the dot product plus the bias once
per window element. -/
theorem conv_single_step_eq (f nCprev : ℕ) (slice W : ℕ → ℕ → ℕ → ℚ) (b : ℚ) :
    Conv2d.conv_single_step f nCprev slice W b =
      specConvSingleStep f nCprev slice W b + ((f * f * nCprev : ℕ) - 1 : ℚ) * b := by
  have hlen : (idx3 f f nCprev).length = f * f * nCprev := by
    simp [idx3, List.length_flatMap, Function.comp_def, mul_assoc]
  rw [Conv2d.conv_single_step, specConvSingleStep]
  have hsum : ∀ l : List (ℕ × ℕ × ℕ),
      ((l.map fun q => slice q.1 q.2.1 q.2.2 * W q.1 q.2.1 q.2.2 + b).sum : ℚ) =
        (l.map fun q => slice q.1 q.2.1 q.2.2 * W q.1 q.2.1 q.2.2).sum + l.length * b := by
    intro l
    induction l with
    | nil => simp
    | cons a t ih => simp [ih] ; ring
  rw [hsum, hlen]
  ring

/-- Local names bound in Conv2d.forward before line 219 executes: the
parameters and every assignment target of lines 162-217. -/
def Conv2d.forwardLocals : List String :=
  ["self", "A_prev", "m", "n_H_prev", "n_W_prev", "n_C_prev", "f", "n_C",
   "stride", "pad", "n_H", "n_W", "Z", "A", "A_prev_pad", "i", "A_prev_pad_i",
   "h", "vert_start", "vert_end", "w", "horiz_start", "horiz_end", "c",
   "a_slice_prev", "weights", "biases"]

/-- C1: the claim says Conv2d.forward adds each channel's bias exactly once per
output cell and applies ReLU.  The code violates both parts: conv_single_step
(line 159) sums np.multiply(slice, W) + b, so broadcasting adds the bias once
per window element — on a 2x2x1 all-zero window with all-zero filter and bias
1 it returns 4 where the specified dot-product-plus-bias is 1 — and line 219
applies the bare name ReLU, which is bound neither among forward's locals nor
at module level (it exists only as the attribute Conv2d.ReLU), so the
activation line raises NameError. -/
theorem conv_single_step_bias_and_relu_bug :
    Conv2d.conv_single_step 2 1 (fun _ _ _ => 0) (fun _ _ _ => 0) 1 = 4 ∧
    specConvSingleStep 2 1 (fun _ _ _ => 0) (fun _ _ _ => 0) 1 = 1 ∧
    (4 : ℚ) ≠ 1 ∧
    "ReLU" ∉ Conv2d.forwardLocals ∧ "ReLU" ∉ moduleGlobals := by
  refine ⟨?_, ?_, by norm_num, by decide, by decide⟩
  · norm_num [Conv2d.conv_single_step, idx3, List.range_succ]
  · norm_num [specConvSingleStep, idx3, List.range_succ]

/-- Conv2d.zero_pad (lines 134-145): pad zeros added on both spatial sides;
nHp and nWp are the spatial dims of the unpadded tensor. -/
def Conv2d.zero_pad (pad nHp nWp : ℕ) (A : T4) : T4 := fun i y x c =>
  if pad ≤ y ∧ y < pad + nHp ∧ pad ≤ x ∧ x < pad + nWp then
    A i (y - pad) (x - pad) c
  else 0

/-- Number of parameters of Conv2d.zero_pad besides self, from its signature at
line 134: def zero_pad(self, X). -/
def Conv2d.zeroPadParams : ℕ := 1

/-- Number of arguments besides self that Conv2d.backward passes to
self.zero_pad at lines 265 and 266: self.zero_pad(A_prev, pad). -/
def Conv2d.backwardZeroPadArgs : ℕ := 2

/-- Gradient the loop at lines 268-290 scatters into the padded input buffer:
line 288 adds W[:,:,:,c] * dA[i,h,w,c] over the window of each output
position. -/
def Conv2d.dAPrevPad (f stride : ℕ) (W dA : T4) (m nH nW nC : ℕ) : T4 :=
  accum4 (idx4 m nH nW nC)
    (fun q i2 y x c2 =>
      if q.1 = i2 ∧ q.2.1 * stride ≤ y ∧ y < q.2.1 * stride + f ∧
          q.2.2.1 * stride ≤ x ∧ x < q.2.2.1 * stride + f then
        W (y - q.2.1 * stride) (x - q.2.2.1 * stride) c2 q.2.2.2 *
          dA q.1 q.2.1 q.2.2.1 q.2.2.2
      else 0)
    (fun _ _ _ _ => 0)

/-- Filter gradient accumulated at line 289; the += updates over the fixed loop
ranges total to this sum. -/
def Conv2d.dWGrad (stride : ℕ) (A_prev_pad dA : T4) (m nH nW : ℕ) : T4 :=
  fun dy dx cp c =>
    ∑ i ∈ Finset.range m, ∑ h ∈ Finset.range nH, ∑ w ∈ Finset.range nW,
      A_prev_pad i (h * stride + dy) (w * stride + dx) cp * dA i h w c

/-- Bias gradient accumulated at line 290. -/
def Conv2d.dbGrad (dA : T4) (m nH nW : ℕ) : ℕ → ℚ :=
  fun c => ∑ i ∈ Finset.range m, ∑ h ∈ Finset.range nH, ∑ w ∈ Finset.range nW, dA i h w c

/-- Conv2d.backward (lines 233-298).  Lines 265 and 266 call self.zero_pad with
two arguments, A_prev (resp. dA_prev) and pad, though zero_pad's signature at
line 134 takes only the tensor besides self, so the interpreter raises
TypeError at line 265 on every call, before any gradient arithmetic runs; the
gradient computation of the remaining lines (scatter into the padded buffer,
filter and bias totals, then stripping the padding at lines 293-296) is kept in
the ok branch that the arity mismatch makes unreachable. -/
def Conv2d.backward (f stride pad : ℕ) (A_prev W dA : T4)
    (m nHp nWp nH nW2 nC : ℕ) : Except PyErr (T4 × T4 × (ℕ → ℚ)) :=
  if Conv2d.backwardZeroPadArgs = Conv2d.zeroPadParams then
    .ok
      (fun i y x c => Conv2d.dAPrevPad f stride W dA m nH nW2 nC i (y + pad) (x + pad) c,
       Conv2d.dWGrad stride (Conv2d.zero_pad pad nHp nWp A_prev) dA m nH nW2,
       Conv2d.dbGrad dA m nH nW2)
  else .error (.typeError "zero_pad() takes 2 positional arguments but 3 were given")

/-- C2: the claim says Conv2d.backward pads the buffers as forward does,
scatter-adds the gradient contributions and returns the three gradients.  The
code never gets there: every call raises TypeError, because lines 265-266 pass
a pad argument that zero_pad's signature (line 134) does not accept. -/
theorem conv_backward_type_error :
    (∀ (f stride pad : ℕ) (A_prev W dA : T4) (m nHp nWp nH nW2 nC : ℕ),
        ∃ e, Conv2d.backward f stride pad A_prev W dA m nHp nWp nH nW2 nC = .error e) ∧
    Conv2d.backward 1 1 0 (fun _ _ _ _ => 0) (fun _ _ _ _ => 0) (fun _ _ _ _ => 0)
        1 1 1 1 1 1 =
      .error (.typeError "zero_pad() takes 2 positional arguments but 3 were given") := by
  constructor
  · intro f stride pad A_prev W dA m nHp nWp nH nW2 nC
    exact ⟨_, rfl⟩
  · rfl

/-- C3 counterexample: the claim says every call of ConvNet2D.__init__ that
passes the length assertions raises NameError from the undefined name X.  With
num_filters = [1], matching hyperparameter lists, pooling = [True] and
pool_size = [2] both assertions pass, yet construction fails earlier, at line
28, with TypeError: Pooling(pool_size[i]) omits the required stride parameter
of Pooling.__init__ (line 303). -/
theorem convnet_init_pooling_type_error :
    ConvNet2D.init [1] [3] [1] [0] (some [true]) [2] = .error (.typeError "Pooling") ∧
    ConvNet2D.init [1] [3] [1] [0] (some [true]) [2] ≠ .error (.nameError "X") := by
  refine ⟨rfl, fun h => PyErr.noConfusion (Except.error.inj h)⟩

/-- C3 amended: every call of ConvNet2D.__init__ whose arguments satisfy the
two assertions of lines 17-18 still raises an exception, so no ConvNet2D
instance can ever be constructed; when pooling is None the exception is the
NameError from the undefined name X at line 30 (when a pooling layer is
requested the construction instead fails at line 28 with TypeError, and a
flags list shorter than the layer count fails at line 27 with IndexError). -/
theorem convnet_init_always_fails
    (num_filters filter_sizes strides paddings : List ℤ)
    (pooling : Option (List Bool)) (pool_size : List ℤ)
    (h1 : num_filters.length = filter_sizes.length ∧
          filter_sizes.length = strides.length ∧
          strides.length = paddings.length)
    (h2 : pooling = none ∨ pooling.elim 0 List.length = pool_size.length) :
    (∃ e, ConvNet2D.init num_filters filter_sizes strides paddings pooling pool_size
        = .error e) ∧
    (pooling = none →
      ConvNet2D.init num_filters filter_sizes strides paddings pooling pool_size
        = .error (.nameError "X")) := by
  rw [ConvNet2D.init, if_neg (not_not_intro h1), if_neg (not_not_intro h2)]
  constructor
  · rcases hfind : (List.range num_filters.length).findSome?
        (ConvNet2D.initLoopStep pooling) with - | e
    · exact ⟨.nameError "X", rfl⟩
    · exact ⟨e, rfl⟩
  · rintro rfl
    rw [initLoopStep_none]
    rfl

/-- Closed instance discharging the hypotheses of convnet_init_always_fails. -/
theorem convnet_init_always_fails_witness :
    (∃ e, ConvNet2D.init [1] [3] [1] [0] none [] = .error e) ∧
    ((none : Option (List Bool)) = none →
      ConvNet2D.init [1] [3] [1] [0] none [] = .error (.nameError "X")) :=
  convnet_init_always_fails [1] [3] [1] [0] none []
    (by constructor <;> simp) (Or.inl rfl)

/-- C10 counterexample: the claim says construction fails fast when the pooling
flags list length differs from the number of layers.  Here there are two layers
but three flags; the assert at line 18 only compares the flags list with
pool_size, so both assertions pass and construction proceeds past validation,
failing only at the unrelated NameError of line 30. -/
theorem convnet_init_flags_length_unchecked :
    ConvNet2D.init [1, 1] [3, 3] [1, 1] [0, 0] (some [false, false, false]) [2, 2, 2]
        = .error (.nameError "X") ∧
    (some [false, false, false] : Option (List Bool)).elim 0 List.length
        ≠ ([1, 1] : List ℤ).length := by
  exact ⟨rfl, by decide⟩

/-- C10 amended: ConvNet2D.__init__ fails fast with AssertionError whenever the
four per-layer hyperparameter lists have mismatched lengths, and, when pooling
is requested, whenever the pooling flags list's length differs from
pool_size's length — the layer count itself is never compared against the
flags list. -/
theorem convnet_init_assert_spec
    (num_filters filter_sizes strides paddings : List ℤ)
    (flags : List Bool) (pool_size : List ℤ) :
    (¬(num_filters.length = filter_sizes.length ∧
        filter_sizes.length = strides.length ∧
        strides.length = paddings.length) →
      ∀ (pooling : Option (List Bool)) (ps : List ℤ),
        ConvNet2D.init num_filters filter_sizes strides paddings pooling ps
          = .error .assertionError) ∧
    (flags.length ≠ pool_size.length →
      ConvNet2D.init num_filters filter_sizes strides paddings (some flags) pool_size
        = .error .assertionError) := by
  constructor
  · intro hmis pooling ps
    rw [ConvNet2D.init, if_pos hmis]
  · intro hflags
    rw [ConvNet2D.init]
    by_cases hmis : num_filters.length = filter_sizes.length ∧
        filter_sizes.length = strides.length ∧ strides.length = paddings.length
    · rw [if_neg (not_not_intro hmis), if_pos]
      push_neg
      exact ⟨by simp, by simpa using hflags⟩
    · rw [if_pos hmis]

/-- Closed instances discharging the hypotheses of convnet_init_assert_spec. -/
theorem convnet_init_assert_spec_witness :
    ConvNet2D.init [1] [] [] [] (some [true]) [] = .error .assertionError ∧
    ConvNet2D.init [1] [1] [1] [1] (some [true]) [] = .error .assertionError :=
  ⟨(convnet_init_assert_spec [1] [] [] [] [true] []).1 (by simp) (some [true]) [],
   (convnet_init_assert_spec [1] [1] [1] [1] [true] []).2 (by simp)⟩

/-- Truncation toward zero, the behavior of Python's int() applied to a
float. -/
def pyTrunc (q : ℚ) : ℤ := if q < 0 then -⌊-q⌋ else ⌊q⌋

/-- Output spatial dimension Conv2d.forward computes at lines 187-188:
int(np.floor((n_prev - f + 2 * pad) / stride) + 1). -/
def Conv2d.outDim (nPrev f pad stride : ℤ) : ℤ :=
  ⌊((nPrev : ℚ) - f + 2 * pad) / stride⌋ + 1

/-- Output spatial dimension Pooling.forward computes at lines 332-333:
int(1 + (n_prev - f) / stride), true division then int() truncation. -/
def Pooling.outDim (nPrev f stride : ℤ) : ℤ :=
  pyTrunc (1 + ((nPrev : ℚ) - f) / stride)

/-- C4 counterexample: the claim says a configuration whose formula value is
non-integer raises a configuration error instead of silently flooring.  For
input size 5, kernel 2, padding 0, stride 2 the formula value
(5 - 2 + 0) / 2 + 1 = 2.5 is not an integer, yet Conv2d.forward just computes
the floored dimension 2 (lines 187-188 contain no validation and no raise) and
proceeds to allocate the output with it. -/
theorem conv_out_dim_silent_floor :
    Conv2d.outDim 5 2 0 2 = 2 ∧ (((5 : ℚ) - 2 + 2 * 0) / 2 + 1).den ≠ 1 := by
  constructor
  · norm_num [Conv2d.outDim]
  · norm_num [Rat.den]

/-- C4 amended: the output spatial dimension Conv2d.forward computes is the
floor of (in - kernel + 2 * pad) / stride plus one — the two bounds below pin
it as that floor — and, for valid pooling configurations (positive stride,
window not exceeding the input), the dimension Pooling.forward computes equals
floor((in - window) / stride) + 1; a non-integer formula value is silently
floored, no configuration error is raised. -/
theorem out_dim_formula (nPrev f pad stride : ℤ) :
    (Conv2d.outDim nPrev f pad stride : ℚ) ≤ ((nPrev : ℚ) - f + 2 * pad) / stride + 1 ∧
    ((nPrev : ℚ) - f + 2 * pad) / stride + 1 < Conv2d.outDim nPrev f pad stride + 1 ∧
    (0 < stride → f ≤ nPrev →
      Pooling.outDim nPrev f stride = ⌊((nPrev : ℚ) - f) / stride⌋ + 1) := by
  refine ⟨?_, ?_, ?_⟩
  · rw [Conv2d.outDim]
    push_cast
    linarith [Int.floor_le (((nPrev : ℚ) - f + 2 * pad) / stride)]
  · rw [Conv2d.outDim]
    push_cast
    linarith [Int.lt_floor_add_one (((nPrev : ℚ) - f + 2 * pad) / stride)]
  · intro hs hf
    have hq : (0 : ℚ) ≤ ((nPrev : ℚ) - f) / stride := by
      apply div_nonneg
      · have hfc : (f : ℚ) ≤ (nPrev : ℚ) := by exact_mod_cast hf
        linarith
      · exact_mod_cast hs.le
    rw [Pooling.outDim, pyTrunc, if_neg (by linarith), add_comm (1 : ℚ), Int.floor_add_one]

/-- Closed instance discharging the hypotheses of out_dim_formula. -/
theorem out_dim_formula_witness :
    ((Conv2d.outDim 5 2 0 2 : ℚ) ≤ ((5 : ℚ) - 2 + 2 * 0) / 2 + 1 ∧
      ((5 : ℚ) - 2 + 2 * 0) / 2 + 1 < Conv2d.outDim 5 2 0 2 + 1) ∧
    Pooling.outDim 5 2 2 = ⌊((5 : ℚ) - 2) / 2⌋ + 1 :=
  ⟨⟨(out_dim_formula 5 2 0 2).1, (out_dim_formula 5 2 0 2).2.1⟩,
   (out_dim_formula 5 2 0 2).2.2 (by norm_num) (by norm_num)⟩

/-- FullyConnected.backward (lines 481-506): dAL = AL - Y (line 501),
dW = np.dot(dAL, X.T) / m (line 502), db = np.sum(dAL, axis=1) / m (line 503),
dA_prev = np.dot(W.T, dAL) (line 504), where X, W, b come from the linear
cache (line 498) and m = AL.shape[1] (line 495); b and learning_rate are never
used. -/
def FullyConnected.backward {ny nx m : ℕ}
    (AL Y : Matrix (Fin ny) (Fin m) ℚ) (X : Matrix (Fin nx) (Fin m) ℚ)
    (W : Matrix (Fin ny) (Fin nx) ℚ) (b : Matrix (Fin ny) (Fin 1) ℚ)
    (learning_rate : ℚ) :
    Matrix (Fin nx) (Fin m) ℚ × Matrix (Fin ny) (Fin nx) ℚ ×
      Matrix (Fin ny) (Fin 1) ℚ :=
  let dAL := AL - Y
  let dW := Matrix.of fun i j => (dAL * X.transpose) i j / (m : ℚ)
  let db := Matrix.of fun i _ => (∑ k, dAL i k) / (m : ℚ)
  let dA_prev := W.transpose * dAL
  (dA_prev, dW, db)

/-- Predicted probabilities [0.7, 0.3] as one column. -/
def AL73 : Matrix (Fin 2) (Fin 1) ℚ := Matrix.of fun i _ => if i = 0 then 0.7 else 0.3

/-- One-hot label [1, 0] as one column. -/
def Y10 : Matrix (Fin 2) (Fin 1) ℚ := Matrix.of fun i _ => if i = 0 then 1 else 0

/-- C7: FullyConnected.backward computes the closed-form softmax-cross-entropy
gradients from the cached input X and the weight snapshot W: entrywise,
dW i j = (sum over examples of (AL - Y) i k * X j k) / batch, db i = (sum of
(AL - Y) i k) / batch, and dInput j k = sum over units of W i j * (AL - Y) i k;
for probabilities [0.7, 0.3] and one-hot label [1, 0] with batch 1, dZ = AL - Y
is [-0.3, 0.3], as its per-unit sums show. -/
theorem fc_backward_gradients :
    (∀ (ny nx m : ℕ) (AL Y : Matrix (Fin ny) (Fin m) ℚ)
        (X : Matrix (Fin nx) (Fin m) ℚ) (W : Matrix (Fin ny) (Fin nx) ℚ)
        (b : Matrix (Fin ny) (Fin 1) ℚ) (lr : ℚ) (i : Fin ny) (j : Fin nx),
        (FullyConnected.backward AL Y X W b lr).2.1 i j
          = (∑ k, (AL i k - Y i k) * X j k) / (m : ℚ)) ∧
    (∀ (ny nx m : ℕ) (AL Y : Matrix (Fin ny) (Fin m) ℚ)
        (X : Matrix (Fin nx) (Fin m) ℚ) (W : Matrix (Fin ny) (Fin nx) ℚ)
        (b : Matrix (Fin ny) (Fin 1) ℚ) (lr : ℚ) (i : Fin ny) (u : Fin 1),
        (FullyConnected.backward AL Y X W b lr).2.2 i u
          = (∑ k, (AL i k - Y i k)) / (m : ℚ)) ∧
    (∀ (ny nx m : ℕ) (AL Y : Matrix (Fin ny) (Fin m) ℚ)
        (X : Matrix (Fin nx) (Fin m) ℚ) (W : Matrix (Fin ny) (Fin nx) ℚ)
        (b : Matrix (Fin ny) (Fin 1) ℚ) (lr : ℚ) (j : Fin nx) (k : Fin m),
        (FullyConnected.backward AL Y X W b lr).1 j k
          = ∑ i, W i j * (AL i k - Y i k)) ∧
    ((FullyConnected.backward AL73 Y10 (1 : Matrix (Fin 1) (Fin 1) ℚ) 0 0 5).2.2 0 0
        = -0.3 ∧
     (FullyConnected.backward AL73 Y10 (1 : Matrix (Fin 1) (Fin 1) ℚ) 0 0 5).2.2 1 0
        = 0.3) := by
  refine ⟨?_, ?_, ?_, ?_, ?_⟩
  · intro ny nx m AL Y X W b lr i j
    simp [FullyConnected.backward, Matrix.mul_apply, Matrix.sub_apply,
      Matrix.transpose_apply]
  · intro ny nx m AL Y X W b lr i u
    simp [FullyConnected.backward, Matrix.sub_apply]
  · intro ny nx m AL Y X W b lr j k
    simp [FullyConnected.backward, Matrix.mul_apply, Matrix.sub_apply,
      Matrix.transpose_apply]
  · norm_num [FullyConnected.backward, AL73, Y10, Matrix.sub_apply,
      Fin.sum_univ_one]
  · norm_num [FullyConnected.backward, AL73, Y10, Matrix.sub_apply,
      Fin.sum_univ_one]

/-- Weight and bias state of a FullyConnected layer (lines 435-436). -/
structure FCParams (ny nx : ℕ) where
  W : Matrix (Fin ny) (Fin nx) ℚ
  b : Matrix (Fin ny) (Fin 1) ℚ

/-- FullyConnected.backward threaded with the layer's parameter state: the
method body (lines 495-506) reads only its arguments and the caches and
contains no assignment to self.W or self.b, so the state passes through. -/
def FullyConnected.backwardStep {ny nx m : ℕ} (s : FCParams ny nx)
    (AL Y : Matrix (Fin ny) (Fin m) ℚ) (X : Matrix (Fin nx) (Fin m) ℚ)
    (Wc : Matrix (Fin ny) (Fin nx) ℚ) (bc : Matrix (Fin ny) (Fin 1) ℚ)
    (learning_rate : ℚ) :
    FCParams ny nx ×
      (Matrix (Fin nx) (Fin m) ℚ × Matrix (Fin ny) (Fin nx) ℚ ×
        Matrix (Fin ny) (Fin 1) ℚ) :=
  (s, FullyConnected.backward AL Y X Wc bc learning_rate)

/-- C9: FullyConnected.backward leaves the layer's weight and bias unchanged on
every call and, although it accepts a learning_rate argument, its result does
not depend on it: it only computes and returns gradients. -/
theorem fc_backward_frame :
    (∀ (ny nx m : ℕ) (s : FCParams ny nx) (AL Y : Matrix (Fin ny) (Fin m) ℚ)
        (X : Matrix (Fin nx) (Fin m) ℚ) (Wc : Matrix (Fin ny) (Fin nx) ℚ)
        (bc : Matrix (Fin ny) (Fin 1) ℚ) (lr : ℚ),
        (FullyConnected.backwardStep s AL Y X Wc bc lr).1 = s) ∧
    (∀ (ny nx m : ℕ) (s : FCParams ny nx) (AL Y : Matrix (Fin ny) (Fin m) ℚ)
        (X : Matrix (Fin nx) (Fin m) ℚ) (Wc : Matrix (Fin ny) (Fin nx) ℚ)
        (bc : Matrix (Fin ny) (Fin 1) ℚ) (lr lr2 : ℚ),
        FullyConnected.backwardStep s AL Y X Wc bc lr
          = FullyConnected.backwardStep s AL Y X Wc bc lr2) :=
  ⟨fun _ _ _ _ _ _ _ _ _ _ => rfl, fun _ _ _ _ _ _ _ _ _ _ _ => rfl⟩

/-- Per-column maximum, np.max(X, axis=0, keepdims=True) at line 457. -/
noncomputable def colMax {n k : ℕ} (X : Matrix (Fin (n + 1)) (Fin k) ℝ) (j : Fin k) : ℝ :=
  Finset.univ.sup' Finset.univ_nonempty fun i => X i j

/-- FullyConnected.softmax (lines 454-458) over exact reals: subtract the
per-column maximum, exponentiate, normalize by the per-column sum. -/
noncomputable def FullyConnected.softmax {n k : ℕ}
    (X : Matrix (Fin (n + 1)) (Fin k) ℝ) : Matrix (Fin (n + 1)) (Fin k) ℝ :=
  Matrix.of fun i j =>
    Real.exp (X i j - colMax X j) / ∑ i2, Real.exp (X i2 j - colMax X j)

/-- C8: FullyConnected.softmax subtracts the per-column maximum before
exponentiating, so every exponential it forms is at most 1 (this is what rules
out overflow for huge logits), every output column sums to 1, and on the
column of logits [1000, 1000, 1000] it returns exactly [1/3, 1/3, 1/3]. -/
theorem softmax_stable_spec :
    (∀ (n k : ℕ) (X : Matrix (Fin (n + 1)) (Fin k) ℝ) (i : Fin (n + 1)) (j : Fin k),
        Real.exp (X i j - colMax X j) ≤ 1) ∧
    (∀ (n k : ℕ) (X : Matrix (Fin (n + 1)) (Fin k) ℝ) (j : Fin k),
        ∑ i, FullyConnected.softmax X i j = 1) ∧
    (∀ (i : Fin 3) (j : Fin 1),
        FullyConnected.softmax (Matrix.of fun (_ : Fin 3) (_ : Fin 1) => (1000 : ℝ)) i j
          = 1 / 3) := by
  refine ⟨?_, ?_, ?_⟩
  · intro n k X i j
    rw [Real.exp_le_one_iff, sub_nonpos, colMax]
    exact Finset.le_sup' (fun i2 => X i2 j) (Finset.mem_univ i)
  · intro n k X j
    have hpos : (0 : ℝ) < ∑ i2, Real.exp (X i2 j - colMax X j) :=
      Finset.sum_pos (fun i2 _ => Real.exp_pos _) Finset.univ_nonempty
    simp only [FullyConnected.softmax, Matrix.of_apply]
    rw [← Finset.sum_div, div_self hpos.ne']
  · intro i j
    have hc : colMax (Matrix.of fun (_ : Fin 3) (_ : Fin 1) => (1000 : ℝ)) j = 1000 := by
      rw [colMax]
      exact Finset.sup'_const _ _
    simp only [FullyConnected.softmax, Matrix.of_apply, hc, sub_self, Real.exp_zero,
      Finset.sum_const, Finset.card_univ, Fintype.card_fin, nsmul_eq_mul]
    norm_num
